import Mathlib

/-!
# Verification of `component/remote/async/async.go`

A shallow embedding of the asynchronous remote synchronisation core of the
client: URL construction, the notify / fetch / backup branching of `Sync`,
the backup loader and the format dispatch of `createApolloConfigWithJSON`.

Go values are embedded as follows.

* `string` is `String`; byte-oriented library routines work on its UTF-8 bytes.
* A slice `[]T` is `Option (List T)`, `none` being the `nil` slice.
* A pointer `*T` is `Option T`, `none` being the `nil` pointer.
* A `map[string]interface{}` is `Option (List (String × String))`, `none`
  being the `nil` map.
* An `error` is `Option String`, `none` being `nil`.
* A panic is the `none` result of a function returning `Option`.

Collaborators that live outside `async.go` (transport, file handler, parser
registry, JSON decoder, per-namespace fetch) are fields of `Env`.
-/

namespace Agollo

/-! ## Go runtime values -/

/-- Go slice: `none` is the `nil` slice. -/
abbrev Slice (α : Type) := Option (List α)

/-- Builtin `len` on a slice. -/
def Slice.len {α : Type} : Slice α → Nat
  | none => 0
  | some xs => xs.length

/-- Builtin `append` of one element to a slice; the result is never `nil`. -/
def Slice.append {α : Type} : Slice α → α → Slice α
  | none, x => some [x]
  | some xs, x => some (xs ++ [x])

/-- Elements of a slice, as visited by a `for ... range` loop. -/
def Slice.elems {α : Type} : Slice α → List α
  | none => []
  | some xs => xs

/-- Go `error` value: `none` is `nil`. -/
abbrev GoError := Option String

/-- Go `map[string]interface{}`: `none` is the `nil` map. -/
abbrev GoMap := Option (List (String × String))

/-- Builtin `len` on a map. -/
def GoMap.len : GoMap → Nat
  | none => 0
  | some kvs => kvs.length

/-- Map index expression `m[key]`; the zero value (`nil`) when the key is absent. -/
def GoMap.get : GoMap → String → Option String
  | none, _ => none
  | some kvs, key => (kvs.find? (fun kv => kv.1 == key)).map Prod.snd

/-! ## Go standard library: `net/url.QueryEscape` and `path.Ext` -/

/-- Table `upperhex` of `net/url`. -/
def upperhex : List Char := "0123456789ABCDEF".data

/-- Function `shouldEscape` of `net/url`, in mode `encodeQueryComponent`:
alphanumerics and the marks `-`, `_`, `.`, `~` are kept, every other byte is
escaped. -/
def shouldEscape (c : Nat) : Bool :=
  if ('a'.toNat ≤ c ∧ c ≤ 'z'.toNat) ∨ ('A'.toNat ≤ c ∧ c ≤ 'Z'.toNat)
      ∨ ('0'.toNat ≤ c ∧ c ≤ '9'.toNat) then false
  else if c = '-'.toNat ∨ c = '_'.toNat ∨ c = '.'.toNat ∨ c = '~'.toNat then false
  else true

/-- One iteration of the output loop of `escape` in `net/url` (mode
`encodeQueryComponent`): a space becomes `+`, a byte to escape becomes `%XX`
in upper-case hexadecimal, any other byte is copied. -/
def escapeByte (c : Nat) : List Char :=
  if c = ' '.toNat then ['+']
  else if shouldEscape c then ['%', upperhex.getD (c / 16) '0', upperhex.getD (c % 16) '0']
  else [Char.ofNat c]

/-- The bytes of a Go string. -/
def bytes (s : String) : List Nat :=
  (s.data.flatMap String.utf8EncodeChar).map UInt8.toNat

/-- Function `url.QueryEscape`. -/
def QueryEscape (s : String) : String :=
  String.mk ((bytes s).flatMap escapeByte)

/-- Loop of `path.Ext`, scanning from the last byte towards the first; `acc`
is the part of the path already passed. -/
def extLoop : List Char → List Char → String
  | [], _ => ""
  | c :: rest, acc =>
    if c = '/' then ""
    else if c = '.' then String.mk ('.' :: acc)
    else extLoop rest (c :: acc)

/-- Function `path.Ext`: the suffix beginning at the final dot in the final
slash-separated element of the path, empty if there is no dot. -/
def Ext (path : String) : String :=
  extLoop path.data.reverse []

/-- Loop of `strings.Split` with the separator `,`; `cur` holds the piece being
read, last byte first. -/
def splitLoop : List Char → List Char → List String
  | [], cur => [String.mk cur.reverse]
  | c :: rest, cur =>
    if c = ',' then String.mk cur.reverse :: splitLoop rest []
    else splitLoop rest (c :: cur)

/-- Function `strings.Split` with the separator `,`: the pieces between
commas, in order; an input without comma is its own single piece. -/
def Split (s : String) : List String :=
  splitLoop s.data []

/-! ## Data model -/

/-- Modelled from the spec: the type `config.Notification` (declared outside
`async.go`), a change record made of a namespace name and a change-version. -/
structure Notification where
  NamespaceName : String
  NotificationID : Int
  deriving DecidableEq, Repr

/-- Modelled from the spec: the type `config.ApolloConfig` (declared outside
`async.go`), a namespace name, a release key and a content mapping. -/
structure ApolloConfig where
  NamespaceName : String
  ReleaseKey : String
  Configurations : GoMap
  deriving DecidableEq, Repr

/-- Modelled from the spec: the type behind `GetNotificationsMap()` (declared
outside `async.go`), a map from namespace name to last observed
change-version, kept as an association list in iteration order. -/
abbrev NotificationsMap := List (String × Int)

/-- Modelled from the spec: the type `config.AppConfig` (declared outside
`async.go`) with the fields this file reads, its NotificationState and the
cache of current configurations per namespace. -/
structure AppConfig where
  AppID : String
  Cluster : String
  Secret : String
  NamespaceName : String
  BackupConfigPath : String
  notificationsMap : NotificationsMap
  currentApolloConfig : String → Option ApolloConfig

/-- Modelled from the spec: the type `env.ConnectConfig` (declared outside
`async.go`), the per-request transport parameters. -/
structure ConnectConfig where
  URI : String
  AppID : String
  Secret : String
  Timeout : Nat
  deriving DecidableEq, Repr

/-- Constant `notifyConnectTimeout`, ten minutes in nanoseconds. -/
def notifyConnectTimeout : Nat := 10 * (60 * 1000000000)

/-- Constant `defaultContentKey`. -/
def defaultContentKey : String := "content"

/-- Constant `utils.Empty`. -/
def Empty : String := ""

/-! ## URL construction -/

/-- Modelled from the spec: method `GetReleaseKey` of the current-configuration
cache (defined outside `async.go`), the release key of the namespace's cached
configuration, the empty string when none is cached. -/
def GetReleaseKey (config : AppConfig) (namespaceName : String) : String :=
  match config.currentApolloConfig namespaceName with
  | none => Empty
  | some c => c.ReleaseKey

/-- Method `GetNotifyURLSuffix`. -/
def GetNotifyURLSuffix (notifications : String) (config : AppConfig) : String :=
  "notifications/v2?appId=" ++ QueryEscape config.AppID
    ++ "&cluster=" ++ QueryEscape config.Cluster
    ++ "&notifications=" ++ QueryEscape notifications

/-- Decimal digit `k + '0'` as a character. -/
def digit (k : Nat) : Char := Char.ofNat (k + '0'.toNat)

/-- Function `ubtoa` of Go's `net` package: the decimal form of one byte,
without leading zeros. -/
def ubtoa (v : Nat) : List Char :=
  if v < 10 then [digit v]
  else if v < 100 then [digit (v / 10), digit (v % 10)]
  else [digit (v / 100), digit (v / 10 % 10), digit (v % 10)]

/-- Four-byte form of a Go `net.IP`, as returned by `To4`. -/
structure IPv4 where
  a : Fin 256
  b : Fin 256
  c : Fin 256
  d : Fin 256
  deriving DecidableEq, Repr

/-- Method `String` of a four-byte `net.IP`: the dotted-decimal form. -/
def IPv4.dotted (ip : IPv4) : String :=
  String.mk (ubtoa ip.a.val ++ '.' :: ubtoa ip.b.val ++ '.' :: ubtoa ip.c.val
    ++ '.' :: ubtoa ip.d.val)

/-- Modelled from the spec: function `utils.GetInternal` (defined outside
`async.go`), the client IP that the networking environment resolves once: the
dotted-decimal form of the IPv4 address found for this host, the empty string
when none is found. -/
def GetInternal (internalIP : Option IPv4) : String :=
  match internalIP with
  | none => ""
  | some ip => ip.dotted

/-- Method `GetSyncURI`; `internalIP` is the address held by the networking
environment, which `utils.GetInternal()` reads. -/
def GetSyncURI (internalIP : Option IPv4) (config : AppConfig) (namespaceName : String) :
    String :=
  "configs/" ++ QueryEscape config.AppID
    ++ "/" ++ QueryEscape config.Cluster
    ++ "/" ++ QueryEscape namespaceName
    ++ "?releaseKey=" ++ QueryEscape (GetReleaseKey config namespaceName)
    ++ "&ip=" ++ GetInternal internalIP

/-! ## External collaborators -/

/-- Modelled from the spec: the interface `file.ContentParser` (declared
outside `async.go`), turning the raw content value into a key/value mapping
or an error. -/
structure ContentParser where
  Parse : Option String → GoMap × GoError

/-- Collaborators of `async.go` defined elsewhere; each claim quantifies over
all of them. -/
structure Env where
  /-- Call `http.RequestRecovery` of the notify request: the value handed
  back (`none` for a `nil` interface) and the error. -/
  RequestRecovery : AppConfig → ConnectConfig → Option (Slice Notification) × GoError
  /-- Method `GetNotifies` of the notifications map: the serialised payload. -/
  GetNotifies : NotificationsMap → String → String
  /-- Call `extension.GetFileHandler().LoadConfigFile`. -/
  LoadConfigFile : String → String → Option ApolloConfig × GoError
  /-- Method `SyncWithNamespace` of the embedded `abs.ApolloConfig`: the fetch
  of one namespace, `none` being the `nil` pointer. -/
  SyncWithNamespace : String → AppConfig → Option ApolloConfig
  /-- Function `extension.GetFormatParser`. -/
  GetFormatParser : String → Option ContentParser
  /-- Constant `constant.DEFAULT`. -/
  DEFAULT : String
  /-- Call `json.Unmarshal` into a fresh `config.ApolloConfig`: the decoded
  target and the error. -/
  Unmarshal : List UInt8 → ApolloConfig × GoError

/-- Modelled from the spec: function `config.SplitNamespaces` (defined outside
`async.go`), which splits the comma-joined specifier into individual namespace
names and runs the callback on each, in order; the callback threads its
captured variables as `σ`. -/
def SplitNamespaces {σ : Type} (namespacesStr : String) (callback : σ → String → σ)
    (init : σ) : σ :=
  (Split namespacesStr).foldl callback init

/-- Modelled from the spec: method `Store` of the notifications map (defined
outside `async.go`), overwriting the change-version of a tracked namespace and
adding an untracked one. -/
def setNotify : NotificationsMap → String → Int → NotificationsMap
  | [], ns, id => [(ns, id)]
  | (k, v) :: rest, ns, id =>
    if k = ns then (k, id) :: rest else (k, v) :: setNotify rest ns id

/-- Modelled from the spec: lookup of the change-version stored for a
namespace in the notifications map. -/
def GetNotify : NotificationsMap → String → Option Int
  | [], _ => none
  | (k, v) :: rest, ns => if k = ns then some v else GetNotify rest ns

/-- Modelled from the spec: method `UpdateAllNotifications` (defined outside
`async.go`): for every namespace present in the response, overwrite its stored
change-version unconditionally, last writer wins. -/
def UpdateAllNotifications (m : NotificationsMap) (remoteConfigs : Slice Notification) :
    NotificationsMap :=
  remoteConfigs.elems.foldl (fun acc n => setNotify acc n.NamespaceName n.NotificationID) m

/-- Modelled from the spec: method `Range` of the map returned by
`GetNotifications()` (defined outside `async.go`), visiting every tracked
namespace once; the callback threads its captured variables as `σ` and always
asks to continue. -/
def Range {σ : Type} (m : NotificationsMap) (f : σ → String → Int → σ) (init : σ) : σ :=
  m.foldl (fun acc kv => f acc kv.1 kv.2) init

/-! ## The functions of `async.go` -/

/-- Method `notifyRemoteConfig`; `none` is the panic on a `nil` AppConfig. -/
def notifyRemoteConfig (env : Env) (appConfig : Option AppConfig) (ns : String) :
    Option (Slice Notification × GoError) :=
  match appConfig with
  | none => none
  | some cfg =>
    let urlSuffix := GetNotifyURLSuffix (env.GetNotifies cfg.notificationsMap ns) cfg
    let connectConfig : ConnectConfig :=
      ⟨urlSuffix, cfg.AppID, cfg.Secret, notifyConnectTimeout⟩
    let r := env.RequestRecovery cfg connectConfig
    match r.1 with
    | none => some (none, r.2)
    | some notifies => some (notifies, r.2)

/-- Function `loadBackupConfig`. -/
def loadBackupConfig (env : Env) (ns : String) (appConfig : AppConfig) :
    Slice (Option ApolloConfig) :=
  SplitNamespaces ns
    (fun apolloConfigs n =>
      let r := env.LoadConfigFile appConfig.BackupConfigPath n
      if r.2.isSome then apolloConfigs
      else if r.1.isNone then apolloConfigs
      else Slice.append apolloConfigs r.1)
    (some [])

/-- Observable outcome of one `Sync` pass: the returned slice, the
NotificationState afterwards and the namespaces handed to `SyncWithNamespace`,
in call order. -/
structure SyncResult where
  apolloConfigs : Slice (Option ApolloConfig)
  notificationsMap : NotificationsMap
  fetched : List String
  deriving DecidableEq, Repr

/-- Method `Sync`; `none` is the panic on a `nil` AppConfig. -/
def Sync (env : Env) (appConfig : Option AppConfig) : Option SyncResult :=
  match notifyRemoteConfig env appConfig Empty, appConfig with
  | some (remoteConfigs, err), some cfg =>
    let apolloConfigs : Slice (Option ApolloConfig) :=
      if err.isSome ∨ remoteConfigs.len = 0 then
        loadBackupConfig env cfg.NamespaceName cfg
      else none
    if apolloConfigs.len > 0 then
      some ⟨apolloConfigs, cfg.notificationsMap, []⟩
    else
      let notifications := UpdateAllNotifications cfg.notificationsMap remoteConfigs
      let cfg1 : AppConfig := { cfg with notificationsMap := notifications }
      let r := Range notifications
        (fun (acc : Slice (Option ApolloConfig) × List String) key _ =>
          (Slice.append acc.1 (env.SyncWithNamespace key cfg1), acc.2 ++ [key]))
        (apolloConfigs, [])
      some ⟨r.1, notifications, r.2⟩
  | _, _ => none

/-- Function `createApolloConfigWithJSON`: the returned value (`none` for
`nil`) and the returned error. -/
def createApolloConfigWithJSON (env : Env) (b : List UInt8) : Option ApolloConfig × GoError :=
  let r := env.Unmarshal b
  let apolloConfig := r.1
  if r.2.isSome then (none, r.2)
  else
    let parser := env.GetFormatParser (Ext apolloConfig.NamespaceName)
    let parser := if parser.isNone then env.GetFormatParser env.DEFAULT else parser
    match parser with
    | none => (some apolloConfig, none)
    | some p =>
      let m := (p.Parse (apolloConfig.Configurations.get defaultContentKey)).1
      if m.len > 0 then (some { apolloConfig with Configurations := m }, none)
      else (some apolloConfig, none)

/-! ## Vocabulary of the claims -/

/-- Namespaces tracked by a notifications map, in iteration order. -/
def keys (m : NotificationsMap) : List String := m.map Prod.fst

/-- Namespace names of a notify response, in order. -/
def names (remoteConfigs : Slice Notification) : List String :=
  remoteConfigs.elems.map (fun n => n.NamespaceName)

/-- Selection the claims about the backup path speak of: a namespace
contributes its configuration when its backup load returned no error and a
non-nil configuration, and contributes nothing otherwise. -/
def backupEntry (env : Env) (path : String) (n : String) : Option (Option ApolloConfig) :=
  match env.LoadConfigFile path n with
  | (some c, none) => some (some c)
  | _ => none

/-! ## Concrete scenarios -/

/-- Collaborators for one `Sync` pass: a fixed answer of the notify request,
a backup store and a per-namespace fetch outcome; no parser is registered. -/
def envSync (notify : Option (Slice Notification) × GoError)
    (backup : String → Option ApolloConfig × GoError)
    (fetch : String → Option ApolloConfig) : Env where
  RequestRecovery := fun _ _ => notify
  GetNotifies := fun _ _ => ""
  LoadConfigFile := fun _ n => backup n
  SyncWithNamespace := fun n _ => fetch n
  GetFormatParser := fun _ => none
  DEFAULT := ""
  Unmarshal := fun _ => (⟨"", "", none⟩, some "unexpected end of JSON input")

/-- AppConfig of application `app1` in cluster `default` with the given
namespace specifier and NotificationState, nothing cached. -/
def appConfigOf (ns : String) (m : NotificationsMap) : AppConfig :=
  ⟨"app1", "default", "", ns, "/tmp/backup", m, fun _ => none⟩

/-- AppConfig of application `app1` whose cache holds namespace `app.yml` with
release key `rk 1`. -/
def cachedAppConfig : AppConfig :=
  ⟨"app1", "default", "", "app.yml", "/tmp/backup", [("app.yml", 1)],
    fun n => if n = "app.yml" then some ⟨"app.yml", "rk 1", none⟩ else none⟩

/-- Backup store without any snapshot. -/
def backupNone : String → Option ApolloConfig × GoError :=
  fun _ => (none, some "open backup file: no such file or directory")

/-- Backup store holding a snapshot for namespace `app` only. -/
def backupApp : String → Option ApolloConfig × GoError :=
  fun n => if n = "app" then (some ⟨"app", "rk0", some [("k", "old")]⟩, none)
    else (none, some "open backup file: no such file or directory")

/-- Fetch succeeding for every namespace. -/
def fetchAll : String → Option ApolloConfig :=
  fun n => some ⟨n, "rk1", some [("k", "v")]⟩

/-- Fetch succeeding for namespace `app` and failing for every other one. -/
def fetchAppOnly : String → Option ApolloConfig :=
  fun n => if n = "app" then some ⟨"app", "rk1", some [("k", "v")]⟩ else none

/-- NotificationState tracking `app` and `app.yml`, neither observed yet. -/
def trackedBoth : NotificationsMap := [("app", -1), ("app.yml", -1)]

/-- Notify answer failing with a transport error. -/
def notifyError : Option (Slice Notification) × GoError := (none, some "timeout")

/-- Notify answer succeeding with zero notifications. -/
def notifyEmpty : Option (Slice Notification) × GoError := (some (some []), none)

/-- Notify answer succeeding with one notification, for `app`. -/
def notifyApp : Option (Slice Notification) × GoError := (some (some [⟨"app", 1⟩]), none)

/-- Notify answer succeeding with notifications for `app` and `app.yml`. -/
def notifyBoth : Option (Slice Notification) × GoError :=
  (some (some [⟨"app", 1⟩, ⟨"app.yml", 2⟩]), none)

/-- Decoder answering every body with the given configuration and no error;
every other collaborator is inert. -/
def envDecoding (c : ApolloConfig) (reg : String → Option ContentParser) : Env where
  RequestRecovery := fun _ _ => (none, none)
  GetNotifies := fun _ _ => ""
  LoadConfigFile := fun _ _ => (none, none)
  SyncWithNamespace := fun _ _ => none
  GetFormatParser := reg
  DEFAULT := ""
  Unmarshal := fun _ => (c, none)

/-- Parser for a line `key: value`, standing for a YAML parser: it always
answers the single entry `k ↦ v`. -/
def parserKV : ContentParser := ⟨fun _ => (some [("k", "v")], none)⟩

/-- Parser that fails: a `nil` mapping together with an error. -/
def parserFailing : ContentParser := ⟨fun _ => (none, some "parse error")⟩

/-- Registry holding `parserKV` under `.yml` only. -/
def registryYml : String → Option ContentParser :=
  fun k => if k = ".yml" then some parserKV else none

/-- Registry holding `parserKV` under the default key `""` only. -/
def registryDefaultOnly : String → Option ContentParser :=
  fun k => if k = "" then some parserKV else none

/-- Registry holding `parserFailing` under `.yml` only. -/
def registryFailingYml : String → Option ContentParser :=
  fun k => if k = ".yml" then some parserFailing else none

/-- Decoded fetch response for namespace `app.yml`. -/
def responseYml : ApolloConfig := ⟨"app.yml", "rk1", some [("content", "k: v")]⟩

/-- Decoded fetch response for namespace `app.txt`. -/
def responseTxt : ApolloConfig := ⟨"app.txt", "rk1", some [("content", "k: v")]⟩

/-! ## Helper lemmas -/

theorem Slice.len_append {α : Type} (s : Slice α) (x : α) :
    (Slice.append s x).len = s.len + 1 := by
  cases s <;> simp [Slice.append, Slice.len]

theorem loadBackup_foldl (env : Env) (path : String) (l : List String)
    (xs : List (Option ApolloConfig)) :
    l.foldl (fun apolloConfigs n =>
        let r := env.LoadConfigFile path n
        if r.2.isSome then apolloConfigs
        else if r.1.isNone then apolloConfigs
        else Slice.append apolloConfigs r.1) (some xs)
      = some (xs ++ l.filterMap (backupEntry env path)) := by
  induction l generalizing xs with
  | nil => simp
  | cons n rest ih =>
    simp only [List.foldl_cons, List.filterMap_cons, backupEntry]
    rcases h : env.LoadConfigFile path n with ⟨c, e⟩
    cases e with
    | some e => simpa using ih xs
    | none =>
      cases c with
      | none => simpa using ih xs
      | some c => simpa [Slice.append] using ih (xs ++ [some c])

theorem loadBackupConfig_eq (env : Env) (ns : String) (appConfig : AppConfig) :
    loadBackupConfig env ns appConfig
      = some ((Split ns).filterMap (backupEntry env appConfig.BackupConfigPath)) := by
  unfold loadBackupConfig SplitNamespaces
  simpa using loadBackup_foldl env appConfig.BackupConfigPath (Split ns) []

/-! ## Format dispatch: `createApolloConfigWithJSON` -/

/-- Claim C5. When the response decodes without error, a parser is registered
for the suffix `path.Ext` of the decoded namespace name, and that parser
returns a non-empty mapping `m` for the value under the key `content`, then
`createApolloConfigWithJSON` returns no error and a configuration whose
content mapping is exactly `m`, with the decoded namespace name and release
key. -/
theorem createApolloConfigWithJSON_registered_suffix (env : Env) (b : List UInt8)
    (p : ContentParser)
    (hdec : (env.Unmarshal b).2 = none)
    (hreg : env.GetFormatParser (Ext (env.Unmarshal b).1.NamespaceName) = some p)
    (hne : 0 < (p.Parse ((env.Unmarshal b).1.Configurations.get defaultContentKey)).1.len) :
    createApolloConfigWithJSON env b
      = (some ⟨(env.Unmarshal b).1.NamespaceName, (env.Unmarshal b).1.ReleaseKey,
          (p.Parse ((env.Unmarshal b).1.Configurations.get defaultContentKey)).1⟩, none) := by
  unfold createApolloConfigWithJSON
  simp [hdec, hreg, hne]

/-- Witness for claim C5: namespace `app.yml`, a parser registered under
`.yml` answering `k ↦ v`; the raw `content` entry is replaced in full. -/
theorem createApolloConfigWithJSON_registered_suffix_witness :
    createApolloConfigWithJSON (envDecoding responseYml registryYml) []
      = (some ⟨"app.yml", "rk1", some [("k", "v")]⟩, none) :=
  createApolloConfigWithJSON_registered_suffix (envDecoding responseYml registryYml) []
    parserKV rfl rfl (by decide)

/-- Claim C6, as stated, fails: for namespace `app.txt` no parser is registered
under `.txt`, the decoded mapping holds `content ↦ "k: v"`, yet with a default
parser registered the returned mapping is the parsed one and has no entry
under `content`. -/
theorem createApolloConfigWithJSON_unregistered_suffix_counterexample :
    (envDecoding responseTxt registryDefaultOnly).GetFormatParser
        (Ext ((envDecoding responseTxt registryDefaultOnly).Unmarshal []).1.NamespaceName)
        = none
      ∧ ((envDecoding responseTxt registryDefaultOnly).Unmarshal []).1.Configurations.get
          defaultContentKey = some "k: v"
      ∧ createApolloConfigWithJSON (envDecoding responseTxt registryDefaultOnly) []
          = (some ⟨"app.txt", "rk1", some [("k", "v")]⟩, none)
      ∧ GoMap.get (some [("k", "v")]) defaultContentKey = none := by
  refine ⟨rfl, by decide, by decide, by decide⟩

/-- Claim C6, amended. When the response decodes without error and no parser
is registered for the suffix of the decoded namespace name: if no default
parser is registered, or the default parser returns zero entries, the decoded
configuration is returned intact, so the value under `content` is the decoded
one; if the default parser returns a non-empty mapping, that mapping replaces
the decoded one. -/
theorem createApolloConfigWithJSON_unregistered_suffix (env : Env) (b : List UInt8)
    (hdec : (env.Unmarshal b).2 = none)
    (hreg : env.GetFormatParser (Ext (env.Unmarshal b).1.NamespaceName) = none) :
    ((∀ p, env.GetFormatParser env.DEFAULT = some p →
          (p.Parse ((env.Unmarshal b).1.Configurations.get defaultContentKey)).1.len = 0) →
        createApolloConfigWithJSON env b = (some (env.Unmarshal b).1, none)
          ∧ ∀ c, (createApolloConfigWithJSON env b).1 = some c →
              c.Configurations.get defaultContentKey
                = (env.Unmarshal b).1.Configurations.get defaultContentKey)
      ∧ (∀ p, env.GetFormatParser env.DEFAULT = some p →
          0 < (p.Parse ((env.Unmarshal b).1.Configurations.get defaultContentKey)).1.len →
          createApolloConfigWithJSON env b
            = (some ⟨(env.Unmarshal b).1.NamespaceName, (env.Unmarshal b).1.ReleaseKey,
                (p.Parse ((env.Unmarshal b).1.Configurations.get defaultContentKey)).1⟩,
               none)) := by
  have key : (∀ p, env.GetFormatParser env.DEFAULT = some p →
      (p.Parse ((env.Unmarshal b).1.Configurations.get defaultContentKey)).1.len = 0) →
      createApolloConfigWithJSON env b = (some (env.Unmarshal b).1, none) := by
    intro h
    unfold createApolloConfigWithJSON
    cases hd : env.GetFormatParser env.DEFAULT with
    | none => simp [hdec, hreg, hd]
    | some p => simp [hdec, hreg, hd, h p hd]
  refine ⟨fun h => ⟨key h, ?_⟩, ?_⟩
  · intro c hc
    rw [key h] at hc
    cases hc
    rfl
  · intro p hd hpos
    unfold createApolloConfigWithJSON
    simp [hdec, hreg, hd, hpos]

/-- Witness for claim C6, amended: namespace `app.txt` with only a `.yml`
parser registered, hence no default parser; the decoded configuration is
returned intact. -/
theorem createApolloConfigWithJSON_unregistered_suffix_witness :
    createApolloConfigWithJSON (envDecoding responseTxt registryYml) []
        = (some responseTxt, none)
      ∧ GoMap.get responseTxt.Configurations defaultContentKey = some "k: v" :=
  ⟨((createApolloConfigWithJSON_unregistered_suffix (envDecoding responseTxt registryYml) []
      rfl rfl).1 (fun p hp => by simp [envDecoding, registryYml] at hp)).1, by decide⟩

/-- Claim C7. When the response decodes without error and the selected parser
(the one registered for the suffix, else the default one) returns zero
entries, whatever error it reports, `createApolloConfigWithJSON` returns no
error and the decoded configuration with its content mapping unchanged. -/
theorem createApolloConfigWithJSON_empty_parse (env : Env) (b : List UInt8)
    (p : ContentParser)
    (hdec : (env.Unmarshal b).2 = none)
    (hsel : env.GetFormatParser (Ext (env.Unmarshal b).1.NamespaceName) = some p
      ∨ (env.GetFormatParser (Ext (env.Unmarshal b).1.NamespaceName) = none
          ∧ env.GetFormatParser env.DEFAULT = some p))
    (hzero : (p.Parse ((env.Unmarshal b).1.Configurations.get defaultContentKey)).1.len = 0) :
    createApolloConfigWithJSON env b = (some (env.Unmarshal b).1, none) := by
  unfold createApolloConfigWithJSON
  rcases hsel with h | ⟨h1, h2⟩
  · simp [hdec, h, hzero]
  · simp [hdec, h1, h2, hzero]

/-- Witness for claim C7: the `.yml` parser fails with a `nil` mapping and an
error; the non-empty decoded mapping of `app.yml` is returned unchanged and no
error is reported. -/
theorem createApolloConfigWithJSON_empty_parse_witness :
    createApolloConfigWithJSON (envDecoding responseYml registryFailingYml) []
      = (some ⟨"app.yml", "rk1", some [("content", "k: v")]⟩, none) :=
  createApolloConfigWithJSON_empty_parse (envDecoding responseYml registryFailingYml) []
    parserFailing rfl (Or.inl rfl) (by decide)

/-! ## Backup fallback: `loadBackupConfig` -/

/-- Claim C8. `loadBackupConfig` returns a non-nil slice holding exactly the
configurations of the split namespaces whose backup load returned no error
and a non-nil configuration, in the order of the specifier; its length is at
most the number of split namespaces, and no entry is a nil placeholder. -/
theorem loadBackupConfig_spec (env : Env) (ns : String) (appConfig : AppConfig) :
    loadBackupConfig env ns appConfig
        = some ((Split ns).filterMap (backupEntry env appConfig.BackupConfigPath))
      ∧ loadBackupConfig env ns appConfig ≠ none
      ∧ (loadBackupConfig env ns appConfig).len ≤ (Split ns).length
      ∧ (∀ c ∈ (loadBackupConfig env ns appConfig).elems, c ≠ none)
      ∧ (∀ n c, backupEntry env appConfig.BackupConfigPath n = some c ↔
          env.LoadConfigFile appConfig.BackupConfigPath n = (c, none) ∧ c ≠ none) := by
  rw [loadBackupConfig_eq]
  refine ⟨rfl, by simp, ?_, ?_, ?_⟩
  · simpa [Slice.len] using List.length_filterMap_le _ _
  · intro c hc
    simp only [Slice.elems, List.mem_filterMap] at hc
    obtain ⟨n, _, hn⟩ := hc
    unfold backupEntry at hn
    split at hn
    · cases hn; simp
    · cases hn
  · intro n c
    unfold backupEntry
    rcases h : env.LoadConfigFile appConfig.BackupConfigPath n with ⟨c1, e⟩
    cases c1 <;> cases e <;> cases c <;> simp


/-! ## URL construction -/

theorem upperhex_getD_mem (k : Nat) : upperhex.getD k '0' ∈ upperhex := by
  by_cases h : k < 16
  · interval_cases k <;> decide
  · have hk : upperhex.length ≤ k := by
      have : upperhex.length = 16 := by decide
      omega
    rw [List.getD_eq_default _ _ hk]
    decide

theorem upperhex_not_reserved (ch : Char) (h : ch ∈ upperhex) :
    ch ≠ '&' ∧ ch ≠ '=' ∧ ch ≠ '?' := by
  revert ch
  decide

set_option maxRecDepth 100000 in
theorem escapeByte_small : ∀ c < 128, ∀ ch ∈ escapeByte c, ch ≠ '&' ∧ ch ≠ '=' ∧ ch ≠ '?' := by
  decide

theorem shouldEscape_large (c : Nat) (h : 128 ≤ c) : shouldEscape c = true := by
  have e1 : 'a'.toNat = 97 := rfl
  have e2 : 'z'.toNat = 122 := rfl
  have e3 : 'A'.toNat = 65 := rfl
  have e4 : 'Z'.toNat = 90 := rfl
  have e5 : '0'.toNat = 48 := rfl
  have e6 : '9'.toNat = 57 := rfl
  have e7 : '-'.toNat = 45 := rfl
  have e8 : '_'.toNat = 95 := rfl
  have e9 : '.'.toNat = 46 := rfl
  have e10 : '~'.toNat = 126 := rfl
  unfold shouldEscape
  rw [e1, e2, e3, e4, e5, e6, e7, e8, e9, e10]
  rw [if_neg (by omega), if_neg (by omega)]

theorem escapeByte_not_reserved (c : Nat) (ch : Char) (h : ch ∈ escapeByte c) :
    ch ≠ '&' ∧ ch ≠ '=' ∧ ch ≠ '?' := by
  by_cases hc : c < 128
  · exact escapeByte_small c hc ch h
  · have hs := shouldEscape_large c (by omega)
    have h32 : c ≠ ' '.toNat := by
      have : ' '.toNat = 32 := rfl
      omega
    simp only [escapeByte, if_neg h32, hs, if_true, List.mem_cons, List.mem_singleton,
      List.not_mem_nil, or_false] at h
    rcases h with h | h | h
    · subst h; decide
    · subst h; exact upperhex_not_reserved _ (upperhex_getD_mem _)
    · subst h; exact upperhex_not_reserved _ (upperhex_getD_mem _)

theorem QueryEscape_not_reserved (v : String) (ch : Char) (h : ch ∈ (QueryEscape v).data) :
    ch ≠ '&' ∧ ch ≠ '=' ∧ ch ≠ '?' := by
  simp only [QueryEscape, List.mem_flatMap] at h
  obtain ⟨c, _, hc⟩ := h
  exact escapeByte_not_reserved c ch hc


theorem QueryEscape_count (v : String) (ch : Char) (hch : ch = '&' ∨ ch = '=' ∨ ch = '?') :
    (QueryEscape v).data.count ch = 0 := by
  rw [List.count_eq_zero]
  intro hmem
  have h := QueryEscape_not_reserved v ch hmem
  rcases hch with e | e | e
  · exact h.1 e
  · exact h.2.1 e
  · exact h.2.2 e

theorem utf8EncodeChar_ascii (ch : Char) (h : ch.toNat < 128) :
    (String.utf8EncodeChar ch).map UInt8.toNat = [ch.toNat] := by
  have hv : ch.val ≤ 0x7f := by
    rw [UInt32.le_def]
    have : ch.val.toNat < 128 := h
    show ch.val.toNat ≤ 127
    omega
  simp only [String.utf8EncodeChar, hv, if_true, List.map_cons, List.map_nil]
  congr 1
  show (ch.val.toUInt8).toNat = ch.val.toNat
  simp [UInt32.toUInt8, Nat.toUInt8, UInt8.ofNat]
  have h2 : ch.val.toNat < 128 := h
  omega


theorem escapeByte_unreserved (ch : Char) (h : shouldEscape ch.toNat = false) :
    ch.toNat < 128 ∧ escapeByte ch.toNat = [ch] := by
  have hlt : ch.toNat < 128 := by
    by_contra hge
    have := shouldEscape_large ch.toNat (by omega)
    rw [h] at this
    cases this
  refine ⟨hlt, ?_⟩
  have h32 : ch.toNat ≠ ' '.toNat := by
    intro e
    rw [e] at h
    revert h
    decide
  unfold escapeByte
  rw [if_neg h32, h]
  simp

theorem QueryEscape_unreserved_aux (l : List Char)
    (h : ∀ ch ∈ l, shouldEscape ch.toNat = false) :
    ((l.flatMap String.utf8EncodeChar).map UInt8.toNat).flatMap escapeByte = l := by
  induction l with
  | nil => rfl
  | cons ch rest ih =>
    have h1 := escapeByte_unreserved ch (h ch (List.mem_cons_self _ _))
    have h2 := ih (fun c hc => h c (List.mem_cons_of_mem _ hc))
    simp only [List.flatMap_cons, List.map_append, List.flatMap_append]
    rw [utf8EncodeChar_ascii ch h1.1, h2]
    simp [h1.2]

theorem QueryEscape_unreserved (s : String)
    (h : ∀ ch ∈ s.data, shouldEscape ch.toNat = false) : QueryEscape s = s := by
  unfold QueryEscape bytes
  rw [QueryEscape_unreserved_aux s.data h]

/-- Claim C9. `GetNotifyURLSuffix` returns
`notifications/v2?appId=E(appId)&cluster=E(cluster)&notifications=E(notifications)`
with `E = url.QueryEscape` applied to each value on its own; no `&`, `=` or
`?` occurs in an escaped value, so the result holds exactly two `&`, one `?`
and three `=` for every input; the value `a&b` is escaped to `a%26b`. Being a
function of its inputs, the result is the same for the same inputs. -/
theorem GetNotifyURLSuffix_spec (notifications : String) (config : AppConfig) :
    GetNotifyURLSuffix notifications config
        = "notifications/v2?appId=" ++ QueryEscape config.AppID
            ++ "&cluster=" ++ QueryEscape config.Cluster
            ++ "&notifications=" ++ QueryEscape notifications
      ∧ (∀ (v : String) (ch : Char), ch ∈ (QueryEscape v).data →
          ch ≠ '&' ∧ ch ≠ '=' ∧ ch ≠ '?')
      ∧ (GetNotifyURLSuffix notifications config).data.count '&' = 2
      ∧ (GetNotifyURLSuffix notifications config).data.count '?' = 1
      ∧ (GetNotifyURLSuffix notifications config).data.count '=' = 3
      ∧ QueryEscape "a&b" = "a%26b" := by
  have a1 := QueryEscape_count config.AppID
  have a2 := QueryEscape_count config.Cluster
  have a3 := QueryEscape_count notifications
  refine ⟨rfl, QueryEscape_not_reserved, ?_, ?_, ?_, by decide⟩
  · simp only [GetNotifyURLSuffix, String.data_append, List.count_append,
      a1 '&' (Or.inl rfl), a2 '&' (Or.inl rfl), a3 '&' (Or.inl rfl)]
    decide
  · simp only [GetNotifyURLSuffix, String.data_append, List.count_append,
      a1 '?' (Or.inr (Or.inr rfl)), a2 '?' (Or.inr (Or.inr rfl)), a3 '?' (Or.inr (Or.inr rfl))]
    decide
  · simp only [GetNotifyURLSuffix, String.data_append, List.count_append,
      a1 '=' (Or.inr (Or.inl rfl)), a2 '=' (Or.inr (Or.inl rfl)), a3 '=' (Or.inr (Or.inl rfl))]
    decide


theorem digit_unreserved (k : Nat) (h : k < 10) : shouldEscape (digit k).toNat = false := by
  interval_cases k <;> decide

theorem ubtoa_unreserved (v : Nat) (hv : v < 256) :
    ∀ ch ∈ ubtoa v, shouldEscape ch.toNat = false := by
  intro ch hch
  unfold ubtoa at hch
  split at hch
  · simp only [List.mem_singleton] at hch
    subst hch
    exact digit_unreserved _ (by omega)
  · split at hch
    · simp only [List.mem_cons, List.mem_singleton, List.not_mem_nil, or_false] at hch
      rcases hch with e | e <;> subst e <;> exact digit_unreserved _ (by omega)
    · simp only [List.mem_cons, List.mem_singleton, List.not_mem_nil, or_false] at hch
      rcases hch with e | e | e <;> subst e <;> exact digit_unreserved _ (by omega)

theorem GetInternal_unreserved (internalIP : Option IPv4) :
    ∀ ch ∈ (GetInternal internalIP).data, shouldEscape ch.toNat = false := by
  cases internalIP with
  | none =>
    intro ch hch
    simp [GetInternal] at hch
  | some ip =>
    intro ch hch
    have hdot : shouldEscape ('.').toNat = false := by decide
    have hmem : ch ∈ ubtoa ip.a.val ++ '.' :: ubtoa ip.b.val ++ '.' :: ubtoa ip.c.val
        ++ '.' :: ubtoa ip.d.val := hch
    simp only [List.mem_append, List.mem_cons] at hmem
    rcases hmem with ((h | h | h) | h | h) | h | h
    · exact ubtoa_unreserved _ ip.a.isLt ch h
    · rw [h]; exact hdot
    · exact ubtoa_unreserved _ ip.b.isLt ch h
    · rw [h]; exact hdot
    · exact ubtoa_unreserved _ ip.c.isLt ch h
    · rw [h]; exact hdot
    · exact ubtoa_unreserved _ ip.d.isLt ch h

/-- Claim C10. For every AppConfig, namespace name, cached release key and
client IP that the networking environment resolves, `GetSyncURI` returns
`configs/E(appId)/E(cluster)/E(namespace)?releaseKey=E(releaseKey)&ip=E(clientIp)`
with the same escaping `E = url.QueryEscape` on each of the five fields;
`releaseKey` is the release key of the cached configuration of the namespace,
the empty string when none is cached. -/
theorem GetSyncURI_spec (internalIP : Option IPv4) (config : AppConfig)
    (namespaceName : String) :
    GetSyncURI internalIP config namespaceName
        = "configs/" ++ QueryEscape config.AppID
            ++ "/" ++ QueryEscape config.Cluster
            ++ "/" ++ QueryEscape namespaceName
            ++ "?releaseKey=" ++ QueryEscape (GetReleaseKey config namespaceName)
            ++ "&ip=" ++ QueryEscape (GetInternal internalIP)
      ∧ GetReleaseKey config namespaceName
        = ((config.currentApolloConfig namespaceName).map
            (fun c => c.ReleaseKey)).getD "" := by
  constructor
  · rw [QueryEscape_unreserved (GetInternal internalIP) (GetInternal_unreserved internalIP)]
    rfl
  · unfold GetReleaseKey
    cases config.currentApolloConfig namespaceName <;> rfl

/-- Instance of claim C10: application `app1`, cluster `default`, namespace
`app.yml` cached with release key `rk 1`, client IP `10.0.0.1`; the space of
the release key is escaped and the address reads the same escaped or not. -/
theorem GetSyncURI_spec_witness :
    GetSyncURI (some ⟨10, 0, 0, 1⟩) cachedAppConfig "app.yml"
        = "configs/app1/default/app.yml?releaseKey=rk+1&ip=10.0.0.1"
      ∧ QueryEscape (GetInternal (some ⟨10, 0, 0, 1⟩)) = "10.0.0.1" := by
  have h := (GetSyncURI_spec (some ⟨10, 0, 0, 1⟩) cachedAppConfig "app.yml").1
  exact ⟨by rw [h]; decide, by decide⟩

/-! ## One synchronisation pass: `Sync` -/

theorem keys_setNotify (m : NotificationsMap) (ns : String) (id : Int) :
    keys (setNotify m ns id) = if ns ∈ keys m then keys m else keys m ++ [ns] := by
  induction m with
  | nil => simp [setNotify, keys]
  | cons kv rest ih =>
    obtain ⟨k, v⟩ := kv
    unfold keys at ih ⊢
    by_cases hk : k = ns
    · simp [setNotify, hk]
    · have hk2 : ¬ ns = k := fun e => hk e.symm
      simp only [setNotify, hk, if_false, List.map_cons, ih, List.mem_cons, hk2, false_or]
      split <;> simp

theorem mem_keys_setNotify (m : NotificationsMap) (ns : String) (id : Int) (k : String) :
    k ∈ keys (setNotify m ns id) ↔ k ∈ keys m ∨ k = ns := by
  rw [keys_setNotify]
  split
  · constructor
    · intro h; exact Or.inl h
    · rintro (h | h)
      · exact h
      · subst h; assumption
  · simp

theorem nodup_keys_setNotify (m : NotificationsMap) (ns : String) (id : Int)
    (h : (keys m).Nodup) : (keys (setNotify m ns id)).Nodup := by
  rw [keys_setNotify]
  split
  · exact h
  · rename_i hn
    rw [List.nodup_append]
    refine ⟨h, List.nodup_singleton _, ?_⟩
    intro a ha hb
    simp only [List.mem_singleton] at hb
    subst hb
    exact hn ha

theorem GetNotify_setNotify_same (m : NotificationsMap) (ns : String) (id : Int) :
    GetNotify (setNotify m ns id) ns = some id := by
  induction m with
  | nil => simp [setNotify, GetNotify]
  | cons kv rest ih =>
    obtain ⟨k, v⟩ := kv
    by_cases hk : k = ns
    · simp [setNotify, GetNotify, hk]
    · simp [setNotify, GetNotify, hk, ih]

theorem GetNotify_setNotify_ne (m : NotificationsMap) (ns : String) (id : Int) (k : String)
    (hne : k ≠ ns) : GetNotify (setNotify m ns id) k = GetNotify m k := by
  induction m with
  | nil =>
    have : ¬ ns = k := fun e => hne e.symm
    simp [setNotify, GetNotify, this]
  | cons kv rest ih =>
    obtain ⟨k1, v⟩ := kv
    by_cases hk : k1 = ns
    · have : ¬ ns = k := fun e => hne e.symm
      simp [setNotify, GetNotify, hk, this]
    · by_cases hk2 : k1 = k
      · subst hk2
        simp [setNotify, GetNotify, hne]
      · simp [setNotify, GetNotify, hk, hk2, ih]

theorem update_foldl_keys (l : List Notification) (m : NotificationsMap) (k : String) :
    k ∈ keys (l.foldl (fun acc n => setNotify acc n.NamespaceName n.NotificationID) m)
      ↔ k ∈ keys m ∨ k ∈ l.map (fun n => n.NamespaceName) := by
  induction l generalizing m with
  | nil => simp
  | cons n rest ih =>
    simp only [List.foldl_cons, ih, mem_keys_setNotify, List.map_cons, List.mem_cons]
    tauto

theorem update_foldl_nodup (l : List Notification) (m : NotificationsMap)
    (h : (keys m).Nodup) :
    (keys (l.foldl (fun acc n => setNotify acc n.NamespaceName n.NotificationID) m)).Nodup := by
  induction l generalizing m with
  | nil => simpa using h
  | cons n rest ih =>
    simp only [List.foldl_cons]
    exact ih _ (nodup_keys_setNotify m _ _ h)

theorem update_foldl_other (l : List Notification) (m : NotificationsMap) (k : String)
    (hk : k ∉ l.map (fun n => n.NamespaceName)) :
    GetNotify (l.foldl (fun acc n => setNotify acc n.NamespaceName n.NotificationID) m) k
      = GetNotify m k := by
  induction l generalizing m with
  | nil => rfl
  | cons n rest ih =>
    simp only [List.map_cons, List.mem_cons, not_or] at hk
    simp only [List.foldl_cons]
    rw [ih _ hk.2, GetNotify_setNotify_ne _ _ _ _ hk.1]

theorem update_foldl_get (l : List Notification) (m : NotificationsMap)
    (hd : (l.map (fun n => n.NamespaceName)).Nodup) (n : Notification) (hn : n ∈ l) :
    GetNotify (l.foldl (fun acc n => setNotify acc n.NamespaceName n.NotificationID) m)
      n.NamespaceName = some n.NotificationID := by
  induction l generalizing m with
  | nil => cases hn
  | cons a rest ih =>
    simp only [List.map_cons, List.nodup_cons] at hd
    simp only [List.foldl_cons]
    rcases List.mem_cons.1 hn with e | hmem
    · subst e
      rw [update_foldl_other _ _ _ hd.1, GetNotify_setNotify_same]
    · exact ih _ hd.2 hmem

theorem range_foldl (f : String → Option ApolloConfig) (m : NotificationsMap)
    (a : Slice (Option ApolloConfig)) (c : List String) :
    m.foldl (fun (acc : Slice (Option ApolloConfig) × List String) kv =>
        (Slice.append acc.1 (f kv.1), acc.2 ++ [kv.1])) (a, c)
      = ((m.map (fun kv => f kv.1)).foldl Slice.append a, c ++ keys m) := by
  induction m generalizing a c with
  | nil => simp [keys]
  | cons kv rest ih =>
    simp only [List.foldl_cons, List.map_cons, ih, keys]
    simp

theorem Sync_eq (env : Env) (cfg : AppConfig) (rc : Slice Notification) (err : GoError)
    (h : notifyRemoteConfig env (some cfg) Empty = some (rc, err)) :
    Sync env (some cfg) =
      if 0 < (if err.isSome ∨ rc.len = 0 then loadBackupConfig env cfg.NamespaceName cfg
              else none).len then
        some ⟨if err.isSome ∨ rc.len = 0 then loadBackupConfig env cfg.NamespaceName cfg
              else none, cfg.notificationsMap, []⟩
      else
        some ⟨((UpdateAllNotifications cfg.notificationsMap rc).map
                (fun kv => env.SyncWithNamespace kv.1
                  { cfg with notificationsMap :=
                      UpdateAllNotifications cfg.notificationsMap rc })).foldl Slice.append
                (if err.isSome ∨ rc.len = 0 then loadBackupConfig env cfg.NamespaceName cfg
                 else none),
              UpdateAllNotifications cfg.notificationsMap rc,
              keys (UpdateAllNotifications cfg.notificationsMap rc)⟩ := by
  unfold Sync
  rw [h]
  simp only [gt_iff_lt, Range]
  rw [range_foldl (fun k => env.SyncWithNamespace k
    { cfg with notificationsMap := UpdateAllNotifications cfg.notificationsMap rc })]
  simp

theorem foldl_append_some (l xs : List (Option ApolloConfig)) :
    l.foldl Slice.append (some xs) = some (xs ++ l) := by
  induction l generalizing xs with
  | nil => simp
  | cons a rest ih => simp [Slice.append, ih]

theorem foldl_append_none (a : Option ApolloConfig) (l : List (Option ApolloConfig)) :
    (a :: l).foldl Slice.append none = some (a :: l) := by
  simp [Slice.append, foldl_append_some]

theorem notify_failed_iff (rc : Slice Notification) (err : GoError) :
    (err.isSome ∨ rc.len = 0) ↔ (err ≠ none ∨ rc.len = 0) := by
  cases err <;> simp

/-- Claim C1, as stated, fails: the notify call errors and the backup store
holds nothing, so the backup-derived list is empty; `Sync` then goes on,
fetches the tracked namespace `app` and returns the fetched configuration
instead of the empty backup list. -/
theorem Sync_notify_error_counterexample :
    notifyRemoteConfig (envSync notifyError backupNone fetchAll)
        (some (appConfigOf "app" [("app", -1)])) Empty = some (none, some "timeout")
      ∧ loadBackupConfig (envSync notifyError backupNone fetchAll) "app"
          (appConfigOf "app" [("app", -1)]) = some []
      ∧ Sync (envSync notifyError backupNone fetchAll) (some (appConfigOf "app" [("app", -1)]))
          = some ⟨some [some ⟨"app", "rk1", some [("k", "v")]⟩], [("app", -1)], ["app"]⟩ := by
  decide

/-- Claim C1, amended. For a non-nil AppConfig whose notify call returns an
error or zero notifications: if the backup-derived list is non-empty, `Sync`
returns exactly that list, issues no fetch and leaves NotificationState as it
was; if the backup-derived list is empty, `Sync` merges the notify answer into
NotificationState, issues one fetch per namespace then tracked, in iteration
order, and returns the fetch results, which is the empty backup-derived list
with zero fetches exactly when no namespace is tracked. -/
theorem Sync_notify_failed (env : Env) (cfg : AppConfig) (rc : Slice Notification)
    (err : GoError)
    (h : notifyRemoteConfig env (some cfg) Empty = some (rc, err))
    (hfail : err ≠ none ∨ rc.len = 0) :
    (0 < (loadBackupConfig env cfg.NamespaceName cfg).len →
        Sync env (some cfg)
          = some ⟨loadBackupConfig env cfg.NamespaceName cfg, cfg.notificationsMap, []⟩)
      ∧ ((loadBackupConfig env cfg.NamespaceName cfg).len = 0 →
        Sync env (some cfg)
          = some ⟨some ((UpdateAllNotifications cfg.notificationsMap rc).map
                (fun kv => env.SyncWithNamespace kv.1
                  { cfg with notificationsMap :=
                      UpdateAllNotifications cfg.notificationsMap rc })),
              UpdateAllNotifications cfg.notificationsMap rc,
              keys (UpdateAllNotifications cfg.notificationsMap rc)⟩
          ∧ (keys (UpdateAllNotifications cfg.notificationsMap rc) = [] ↔
              ∃ r, Sync env (some cfg) = some r
                ∧ r.apolloConfigs = loadBackupConfig env cfg.NamespaceName cfg
                ∧ r.fetched = [])) := by
  have hc : err.isSome ∨ rc.len = 0 := (notify_failed_iff rc err).2 hfail
  have hs := Sync_eq env cfg rc err h
  simp only [hc, if_true] at hs
  refine ⟨fun hpos => ?_, fun hzero => ?_⟩
  · rw [hs, if_pos hpos]
  · have hbk : loadBackupConfig env cfg.NamespaceName cfg = some [] := by
      have e := loadBackupConfig_eq env cfg.NamespaceName cfg
      rw [e] at hzero ⊢
      simp only [Slice.len, List.length_eq_zero] at hzero
      rw [hzero]
    have hs2 : Sync env (some cfg)
        = some ⟨some ((UpdateAllNotifications cfg.notificationsMap rc).map
              (fun kv => env.SyncWithNamespace kv.1
                { cfg with notificationsMap :=
                    UpdateAllNotifications cfg.notificationsMap rc })),
            UpdateAllNotifications cfg.notificationsMap rc,
            keys (UpdateAllNotifications cfg.notificationsMap rc)⟩ := by
      rw [hs, if_neg (by omega), hbk, foldl_append_some]
      simp
    refine ⟨hs2, ?_⟩
    rw [hs2, hbk]
    constructor
    · intro hk
      refine ⟨_, rfl, ?_, hk⟩
      have : UpdateAllNotifications cfg.notificationsMap rc = [] := by
        simpa [keys] using hk
      simp [this]
    · rintro ⟨r, hr, _, hf⟩
      cases hr
      exact hf

/-- Witness for claim C1, amended: the notify call returns zero notifications
without error and the backup store holds a snapshot of `app`; `Sync` returns
that snapshot and fetches nothing. -/
theorem Sync_notify_failed_witness :
    Sync (envSync notifyEmpty backupApp fetchAll) (some (appConfigOf "app" [("app", -1)]))
      = some ⟨some [some ⟨"app", "rk0", some [("k", "old")]⟩], [("app", -1)], []⟩ :=
  (Sync_notify_failed (envSync notifyEmpty backupApp fetchAll)
    (appConfigOf "app" [("app", -1)]) (some []) none rfl (Or.inr rfl)).1 (by decide)

/-- Claim C2. For a non-nil AppConfig whose notify call returns an error or
zero notifications, if the backup-derived list holds at least one
configuration then `Sync` returns that list, hands no namespace to
`SyncWithNamespace` and leaves NotificationState exactly as it was. -/
theorem Sync_backup_hit (env : Env) (cfg : AppConfig) (rc : Slice Notification)
    (err : GoError)
    (h : notifyRemoteConfig env (some cfg) Empty = some (rc, err))
    (hfail : err ≠ none ∨ rc.len = 0)
    (hbk : 0 < (loadBackupConfig env cfg.NamespaceName cfg).len) :
    ∃ r, Sync env (some cfg) = some r
      ∧ r.apolloConfigs = loadBackupConfig env cfg.NamespaceName cfg
      ∧ r.fetched = []
      ∧ r.notificationsMap = cfg.notificationsMap := by
  have hc : err.isSome ∨ rc.len = 0 := (notify_failed_iff rc err).2 hfail
  have hs := Sync_eq env cfg rc err h
  simp only [hc, if_true] at hs
  rw [if_pos hbk] at hs
  exact ⟨_, hs, rfl, rfl, rfl⟩

/-- Witness for claim C2: the notify call errors, the backup store holds a
snapshot of `app` and none of `app.yml`; `Sync` returns the one snapshot,
fetches nothing and NotificationState still holds its two entries. -/
theorem Sync_backup_hit_witness :
    ∃ r, Sync (envSync notifyError backupApp fetchAll)
          (some (appConfigOf "app,app.yml" trackedBoth)) = some r
      ∧ r.apolloConfigs = some [some ⟨"app", "rk0", some [("k", "old")]⟩]
      ∧ r.fetched = []
      ∧ r.notificationsMap = [("app", -1), ("app.yml", -1)] :=
  Sync_backup_hit (envSync notifyError backupApp fetchAll)
    (appConfigOf "app,app.yml" trackedBoth) none (some "timeout") rfl
    (Or.inl (by decide)) (by decide)

/-- Claim C3, as stated, fails: `app` and `app.yml` are tracked and the notify
call answers with the single notification for `app`; NotificationState takes
the new change-version of `app`, yet two fetches are attempted, one of them
for `app.yml`, which the notify answer does not name, and its configuration
is part of the result. -/
theorem Sync_fetch_count_counterexample :
    notifyRemoteConfig (envSync notifyApp backupNone fetchAll)
        (some (appConfigOf "app,app.yml" trackedBoth)) Empty
        = some (some [⟨"app", 1⟩], none)
      ∧ Sync (envSync notifyApp backupNone fetchAll)
          (some (appConfigOf "app,app.yml" trackedBoth))
        = some ⟨some [some ⟨"app", "rk1", some [("k", "v")]⟩,
                      some ⟨"app.yml", "rk1", some [("k", "v")]⟩],
                [("app", 1), ("app.yml", -1)], ["app", "app.yml"]⟩
      ∧ ["app", "app.yml"].length ≠ Slice.len (some [(⟨"app", 1⟩ : Notification)])
      ∧ "app.yml" ∉ names (some [⟨"app", 1⟩]) := by
  decide

/-- Claim C3, amended. For a non-nil AppConfig whose notify call succeeds with
`N ≥ 1` notifications naming `N` distinct namespaces: after `Sync`
NotificationState holds the new change-version of each notified namespace;
one fetch is attempted per namespace tracked in NotificationState after the
merge, that is for every notified namespace and for every namespace tracked
before, also when the notify answer does not name it, and the result has one
entry per fetch; so at least `N` fetches are attempted, and exactly `N` when
every namespace tracked before is named in the notify answer. -/
theorem Sync_remote_path (env : Env) (cfg : AppConfig) (rc : Slice Notification)
    (h : notifyRemoteConfig env (some cfg) Empty = some (rc, none))
    (hN : 1 ≤ rc.len)
    (hdist : (names rc).Nodup) :
    Sync env (some cfg)
        = some ⟨some ((UpdateAllNotifications cfg.notificationsMap rc).map
              (fun kv => env.SyncWithNamespace kv.1
                { cfg with notificationsMap :=
                    UpdateAllNotifications cfg.notificationsMap rc })),
            UpdateAllNotifications cfg.notificationsMap rc,
            keys (UpdateAllNotifications cfg.notificationsMap rc)⟩
      ∧ (∀ n ∈ rc.elems,
          GetNotify (UpdateAllNotifications cfg.notificationsMap rc) n.NamespaceName
            = some n.NotificationID)
      ∧ (∀ k, k ∈ keys (UpdateAllNotifications cfg.notificationsMap rc)
          ↔ k ∈ keys cfg.notificationsMap ∨ k ∈ names rc)
      ∧ rc.len ≤ (keys (UpdateAllNotifications cfg.notificationsMap rc)).length
      ∧ ((keys cfg.notificationsMap).Nodup →
          (keys (UpdateAllNotifications cfg.notificationsMap rc)).Nodup)
      ∧ ((keys cfg.notificationsMap).Nodup →
          (∀ k ∈ keys cfg.notificationsMap, k ∈ names rc) →
          (keys (UpdateAllNotifications cfg.notificationsMap rc)).length = rc.len) := by
  have hmem : ∀ k, k ∈ keys (UpdateAllNotifications cfg.notificationsMap rc)
      ↔ k ∈ keys cfg.notificationsMap ∨ k ∈ names rc :=
    fun k => update_foldl_keys rc.elems cfg.notificationsMap k
  have hlen : rc.len = (names rc).length := by
    cases rc <;> simp [names, Slice.len, Slice.elems]
  have hsub : names rc ⊆ keys (UpdateAllNotifications cfg.notificationsMap rc) :=
    fun k hk => (hmem k).2 (Or.inr hk)
  have hle : rc.len ≤ (keys (UpdateAllNotifications cfg.notificationsMap rc)).length := by
    rw [hlen]
    exact (List.subperm_of_subset hdist hsub).length_le
  refine ⟨?_, ?_, hmem, hle, ?_, ?_⟩
  · have hs := Sync_eq env cfg rc none h
    have hc : ¬ ((none : GoError).isSome ∨ rc.len = 0) := by
      simp
      omega
    simp only [hc, if_false] at hs
    rw [hs, if_neg (by simp [Slice.len])]
    cases hst : UpdateAllNotifications cfg.notificationsMap rc with
    | nil =>
      rw [hst] at hle
      simp only [keys, List.map_nil, List.length_nil] at hle
      omega
    | cons kv rest =>
      simp only [List.map_cons]
      rw [foldl_append_none]
  · intro n hn
    exact update_foldl_get rc.elems cfg.notificationsMap hdist n hn
  · intro hnd
    exact update_foldl_nodup rc.elems cfg.notificationsMap hnd
  · intro hnd hall
    rw [hlen]
    apply List.Perm.length_eq
    have hnd2 : (keys (UpdateAllNotifications cfg.notificationsMap rc)).Nodup :=
      update_foldl_nodup rc.elems cfg.notificationsMap hnd
    rw [List.perm_ext_iff_of_nodup hnd2 hdist]
    intro k
    rw [hmem k]
    constructor
    · rintro (hk | hk)
      · exact hall k hk
      · exact hk
    · exact fun hk => Or.inr hk

/-- Witness for claim C3, amended: `app` and `app.yml` are tracked and the
notify call names both; both change-versions are stored and exactly two
fetches are attempted. -/
theorem Sync_remote_path_witness :
    Sync (envSync notifyBoth backupNone fetchAll)
        (some (appConfigOf "app,app.yml" trackedBoth))
      = some ⟨some [some ⟨"app", "rk1", some [("k", "v")]⟩,
                    some ⟨"app.yml", "rk1", some [("k", "v")]⟩],
              [("app", 1), ("app.yml", 2)], ["app", "app.yml"]⟩ :=
  (Sync_remote_path (envSync notifyBoth backupNone fetchAll)
    (appConfigOf "app,app.yml" trackedBoth) (some [⟨"app", 1⟩, ⟨"app.yml", 2⟩])
    rfl (by decide) (by decide)).1

/-- Claim C4 at the failing input: `app` and `app.yml` are tracked, the notify
call succeeds, the fetch of `app` succeeds and the fetch of `app.yml` fails
with a `nil` result; the slice returned by `Sync` has two entries, the second
one the `nil` of the failed fetch, although one fetch succeeded. -/
theorem Sync_failed_fetch_placeholder :
    Sync (envSync notifyApp backupNone fetchAppOnly)
        (some (appConfigOf "app,app.yml" trackedBoth))
      = some ⟨some [some ⟨"app", "rk1", some [("k", "v")]⟩, none],
              [("app", 1), ("app.yml", -1)], ["app", "app.yml"]⟩
      ∧ fetchAppOnly "app.yml" = none
      ∧ Slice.len (some [some (⟨"app", "rk1", some [("k", "v")]⟩ : ApolloConfig), none])
          ≠ (["app", "app.yml"].filter (fun n => (fetchAppOnly n).isSome)).length := by
  decide

end Agollo
